import Mathlib

/-!
Verification of the point-to-point distance kinematic evaluator
(`multibody/kinematic/distance_evaluator.cc`) of the dairlib constraint
evaluation framework.

The rigid-body dynamics engine that supplies frame poses, translational
point Jacobians and bias accelerations is an external collaborator of the
repository; following the external-interface section of the design
document it is modelled here as a per-state kinematic `Context`: every
frame has a world rotation (orthogonal matrix) and a world origin, a
translational Jacobian of its origin, and an angular-velocity Jacobian,
all with respect to the generalized velocity.  A point rigidly fixed to a
frame then has the world translational Jacobian dictated by rigid-body
kinematics, and the engine's point-transform and Jacobian queries are
derived from that data.
-/

namespace dairlib

namespace multibody

open Matrix

/-- Euclidean norm of a 3-vector, Eigen's `.norm()`. -/
noncomputable def vnorm (x : Fin 3 → ℝ) : ℝ := Real.sqrt (x ⬝ᵥ x)

/-- Skew-symmetric cross-product matrix of a 3-vector:
`crossMat a *ᵥ b` is the cross product `a × b`. -/
def crossMat (a : Fin 3 → ℝ) : Matrix (Fin 3) (Fin 3) ℝ :=
  !![0, -a 2, a 1; a 2, 0, -a 0; -a 1, a 0, 0]

/-- Modelled from the spec: the state snapshot ("context") of the external
rigid-body dynamics engine, restricted to the queries the distance
evaluator consumes (spec, External Interfaces): per frame a world pose
(orthogonal rotation `rot`, origin `org`), the world translational
Jacobian `jacO` of the frame origin and the world angular-velocity
Jacobian `jacAng` with respect to the `nv` generalized velocities, the
world-frame translational bias acceleration `biasAccelW` of a point fixed
in a frame, the current generalized velocity `v`, and the distinguished
world frame whose pose is the identity and whose Jacobians vanish. -/
structure Context (F : Type) (nv : ℕ) where
  rot : F → Matrix (Fin 3) (Fin 3) ℝ
  org : F → Fin 3 → ℝ
  jacO : F → Matrix (Fin 3) (Fin nv) ℝ
  jacAng : F → Matrix (Fin 3) (Fin nv) ℝ
  biasAccelW : F → (Fin 3 → ℝ) → Fin 3 → ℝ
  v : Fin nv → ℝ
  world : F
  rot_orth : ∀ f, (rot f)ᵀ * rot f = 1
  rot_world : rot world = 1
  org_world : org world = 0
  jacO_world : jacO world = 0
  jacAng_world : jacAng world = 0

variable {F : Type} {nv : ℕ}

/-- World position of the point with local coordinates `p` fixed in frame `f`. -/
def Context.worldPt (c : Context F nv) (f : F) (p : Fin 3 → ℝ) : Fin 3 → ℝ :=
  c.rot f *ᵥ p + c.org f

/-- World translational-velocity Jacobian of the point with local
coordinates `p` fixed in frame `f`: rigid attachment gives the point the
velocity `v_origin + ω × (x_p − o_f)`, and `x_p − o_f = rot f *ᵥ p`. -/
def Context.jacPt (c : Context F nv) (f : F) (p : Fin 3 → ℝ) :
    Matrix (Fin 3) (Fin nv) ℝ :=
  c.jacO f - crossMat (c.rot f *ᵥ p) * c.jacAng f

/-- Modelled from the spec: the engine's `CalcPointsPositions` query —
transform a point expressed in frame `fromF` into frame `toF`'s
coordinates. -/
def Context.calcPointsPositions (c : Context F nv) (fromF : F) (p : Fin 3 → ℝ)
    (toF : F) : Fin 3 → ℝ :=
  (c.rot toF)ᵀ *ᵥ (c.worldPt fromF p - c.org toF)

/-- Modelled from the spec: the engine's `CalcJacobianTranslationalVelocity`
query — the translational-velocity Jacobian of the point `p` fixed in
frame `f`, as measured from frame `measuredIn` and expressed in frame
`expressedIn`.  The velocity measured from `measuredIn` subtracts the
velocity of the coincident material point of `measuredIn`, whose Jacobian
is `jacO measuredIn - crossMat (x_p - org measuredIn) * jacAng measuredIn`;
expressing in a frame premultiplies by that frame's inverse rotation. -/
def Context.calcJacobianTranslationalVelocity (c : Context F nv) (f : F)
    (p : Fin 3 → ℝ) (measuredIn expressedIn : F) : Matrix (Fin 3) (Fin nv) ℝ :=
  (c.rot expressedIn)ᵀ *
    (c.jacPt f p -
      (c.jacO measuredIn -
        crossMat (c.worldPt f p - c.org measuredIn) * c.jacAng measuredIn))

/-- The distance evaluator's construction-time data:
`length` (row count passed to the `KinematicEvaluator` base), the two
local points, the two frames, and the target distance. -/
structure DistanceEvaluator (F : Type) where
  length : ℕ
  pt_A : Fin 3 → ℝ
  frame_A : F
  pt_B : Fin 3 → ℝ
  frame_B : F
  distance : ℝ

/-- The `DistanceEvaluator` constructor: stores the points, frames and
target distance, and passes the fixed row count `1` to the base class. -/
def mkDistanceEvaluator (pt_A : Fin 3 → ℝ) (frame_A : F) (pt_B : Fin 3 → ℝ)
    (frame_B : F) (distance : ℝ) : DistanceEvaluator F :=
  ⟨1, pt_A, frame_A, pt_B, frame_B, distance⟩

/-- `DistanceEvaluator::EvalFull`: transform point A to frame B, subtract
point B, and return the 1-vector `‖rel_pos‖ - distance`. -/
noncomputable def DistanceEvaluator.EvalFull (e : DistanceEvaluator F)
    (c : Context F nv) : Fin 1 → ℝ :=
  let pt_A_B := c.calcPointsPositions e.frame_A e.pt_A e.frame_B
  let rel_pos := pt_A_B - e.pt_B
  fun _ => vnorm rel_pos - e.distance

/-- `DistanceEvaluator::EvalFullJacobian`: the 1×nv matrix
`rel_posᵀ * J_A / ‖rel_pos‖` where `rel_pos` is point A in frame B minus
point B, and `J_A` is the Jacobian of point A measured in and expressed in
frame B. -/
noncomputable def DistanceEvaluator.EvalFullJacobian (e : DistanceEvaluator F)
    (c : Context F nv) : Matrix (Fin 1) (Fin nv) ℝ :=
  let pt_A_B := c.calcPointsPositions e.frame_A e.pt_A e.frame_B
  let rel_pos := pt_A_B - e.pt_B
  let J_A := c.calcJacobianTranslationalVelocity e.frame_A e.pt_A e.frame_B e.frame_B
  Matrix.of fun _ j => Matrix.vecMul rel_pos J_A j / vnorm rel_pos

/-- `DistanceEvaluator::EvalFullJacobianDotTimesV`: the world-frame
chain-rule expansion
`‖J_rel v‖²/φ + rel_posᵀ (a_A - a_B)/φ - φ̇ rel_posᵀ (J_rel v)/φ²`
with every kinematic quantity taken in the world frame. -/
noncomputable def DistanceEvaluator.EvalFullJacobianDotTimesV
    (e : DistanceEvaluator F) (c : Context F nv) : Fin 1 → ℝ :=
  let pt_A_world := c.calcPointsPositions e.frame_A e.pt_A c.world
  let pt_B_world := c.calcPointsPositions e.frame_B e.pt_B c.world
  let rel_pos := pt_A_world - pt_B_world
  let J_A := c.calcJacobianTranslationalVelocity e.frame_A e.pt_A c.world c.world
  let J_B := c.calcJacobianTranslationalVelocity e.frame_B e.pt_B c.world c.world
  let J_rel := J_A - J_B
  let J_A_dot_times_v := c.biasAccelW e.frame_A e.pt_A
  let J_B_dot_times_v := c.biasAccelW e.frame_B e.pt_B
  let J_rel_dot_times_v := J_A_dot_times_v - J_B_dot_times_v
  let phi := vnorm rel_pos
  let J : Fin nv → ℝ := fun j => Matrix.vecMul rel_pos J_rel j / phi
  let phidot := J ⬝ᵥ c.v
  let J_rel_v := J_rel *ᵥ c.v
  fun _ => J_rel_v ⬝ᵥ J_rel_v / phi + rel_pos ⬝ᵥ J_rel_dot_times_v / phi
    - phidot * (rel_pos ⬝ᵥ J_rel_v) / (phi * phi)

/-- The spec's `Δ`: relative world position of point A minus point B. -/
def relPosW (e : DistanceEvaluator F) (c : Context F nv) : Fin 3 → ℝ :=
  c.worldPt e.frame_A e.pt_A - c.worldPt e.frame_B e.pt_B

/-- The spec's `J_rel = J_A - J_B`: difference of the two points'
world-frame translational-velocity Jacobians. -/
def jacRelW (e : DistanceEvaluator F) (c : Context F nv) :
    Matrix (Fin 3) (Fin nv) ℝ :=
  c.jacPt e.frame_A e.pt_A - c.jacPt e.frame_B e.pt_B

/-- The spec's `φ̇ = ((Δᵗ·J_rel)/φ)·v`: directional derivative of the
distance along the current generalized velocity. -/
noncomputable def phiDotW (e : DistanceEvaluator F) (c : Context F nv) : ℝ :=
  (fun j => Matrix.vecMul (relPosW e c) (jacRelW e c) j / vnorm (relPosW e c)) ⬝ᵥ c.v

/-- The intermediate Jacobian row `J` computed inside
`EvalFullJacobianDotTimesV` from world-frame quantities
(`auto J = (rel_pos.transpose() * J_rel) / phi`). -/
noncomputable def worldJacobianInsideBias (e : DistanceEvaluator F)
    (c : Context F nv) : Fin nv → ℝ :=
  let pt_A_world := c.calcPointsPositions e.frame_A e.pt_A c.world
  let pt_B_world := c.calcPointsPositions e.frame_B e.pt_B c.world
  let rel_pos := pt_A_world - pt_B_world
  let J_A := c.calcJacobianTranslationalVelocity e.frame_A e.pt_A c.world c.world
  let J_B := c.calcJacobianTranslationalVelocity e.frame_B e.pt_B c.world c.world
  fun j => Matrix.vecMul rel_pos (J_A - J_B) j / vnorm rel_pos

/-- A concrete kinematic context used for concrete evaluations: three
frames (`0` = world, `1` = frame A, `2` = frame B), one generalized
velocity, every frame at the world pose, all Jacobians and bias
accelerations zero, zero generalized velocity. -/
def ctxW : Context (Fin 3) 1 where
  rot := fun _ => 1
  org := fun _ => 0
  jacO := fun _ => 0
  jacAng := fun _ => 0
  biasAccelW := fun _ _ => 0
  v := 0
  world := 0
  rot_orth := fun _ => by simp
  rot_world := rfl
  org_world := rfl
  jacO_world := rfl
  jacAng_world := rfl

/-- Concrete evaluator: point A = (0,0,0) on frame A, point B = (1,0,0)
on frame B, target distance 0.5. -/
def evAB : DistanceEvaluator (Fin 3) :=
  mkDistanceEvaluator ![0, 0, 0] 1 ![1, 0, 0] 2 0.5

/-- Concrete evaluator with point B moved to (0.5,0,0). -/
def evAB2 : DistanceEvaluator (Fin 3) :=
  mkDistanceEvaluator ![0, 0, 0] 1 ![0.5, 0, 0] 2 0.5

/-! ### Helper lemmas -/

lemma Context.rot_mul_rot_transpose (c : Context F nv) (f : F) :
    c.rot f * (c.rot f)ᵀ = 1 :=
  Matrix.mul_eq_one_comm.mp (c.rot_orth f)

lemma dotProduct_rotT_rotT (R : Matrix (Fin 3) (Fin 3) ℝ) (hR : R * Rᵀ = 1)
    (x y : Fin 3 → ℝ) : (Rᵀ *ᵥ x) ⬝ᵥ (Rᵀ *ᵥ y) = x ⬝ᵥ y := by
  rw [Matrix.mulVec_transpose, ← Matrix.dotProduct_mulVec,
    Matrix.mulVec_mulVec, hR, Matrix.one_mulVec]

lemma vnorm_rotT (R : Matrix (Fin 3) (Fin 3) ℝ) (hR : R * Rᵀ = 1)
    (x : Fin 3 → ℝ) : vnorm (Rᵀ *ᵥ x) = vnorm x := by
  unfold vnorm
  rw [dotProduct_rotT_rotT R hR]

lemma vecMul_rotT (R : Matrix (Fin 3) (Fin 3) ℝ) (hR : R * Rᵀ = 1)
    (x : Fin 3 → ℝ) (M : Matrix (Fin 3) (Fin nv) ℝ) :
    Matrix.vecMul (Rᵀ *ᵥ x) (Rᵀ * M) = Matrix.vecMul x M := by
  rw [Matrix.mulVec_transpose, Matrix.vecMul_vecMul, ← Matrix.mul_assoc, hR,
    Matrix.one_mul]

lemma vecMul_crossMat_self (a : Fin 3 → ℝ) :
    Matrix.vecMul a (crossMat a) = 0 := by
  funext j
  fin_cases j <;>
    simp [crossMat, Matrix.vecMul, Matrix.dotProduct, Fin.sum_univ_three] <;>
    ring

lemma crossMat_sub (x y : Fin 3 → ℝ) :
    crossMat (x - y) = crossMat x - crossMat y := by
  ext i j
  fin_cases i <;> fin_cases j <;>
    simp [crossMat] <;> ring

lemma crossMat_add (x y : Fin 3 → ℝ) :
    crossMat (x + y) = crossMat x + crossMat y := by
  ext i j
  fin_cases i <;> fin_cases j <;>
    simp [crossMat] <;> ring

/-- The relative position computed in frame B is the world-frame relative
position rotated into frame B's coordinates. -/
lemma relPos_frameB (e : DistanceEvaluator F) (c : Context F nv) :
    c.calcPointsPositions e.frame_A e.pt_A e.frame_B - e.pt_B
      = (c.rot e.frame_B)ᵀ *ᵥ relPosW e c := by
  unfold Context.calcPointsPositions relPosW Context.worldPt
  simp only [Matrix.mulVec_sub, Matrix.mulVec_add, Matrix.mulVec_mulVec,
    c.rot_orth, Matrix.one_mulVec]
  abel

lemma calcPointsPositions_world (c : Context F nv) (f : F) (p : Fin 3 → ℝ) :
    c.calcPointsPositions f p c.world = c.worldPt f p := by
  unfold Context.calcPointsPositions
  rw [c.rot_world, c.org_world, Matrix.transpose_one, Matrix.one_mulVec,
    sub_zero]

lemma calcJacobian_world (c : Context F nv) (f : F) (p : Fin 3 → ℝ) :
    c.calcJacobianTranslationalVelocity f p c.world c.world = c.jacPt f p := by
  unfold Context.calcJacobianTranslationalVelocity
  rw [c.rot_world, c.jacO_world, c.jacAng_world, Matrix.transpose_one,
    Matrix.mul_zero, zero_sub, sub_neg_eq_add, Matrix.one_mul]
  simp

/-- Key frame-independence identity: the row vector `rel_posᵀ * J_A`
computed by `EvalFullJacobian` with frame-B quantities (a single Jacobian
of point A measured in frame B) equals `Δᵗ * (J_A - J_B)` computed from
world-frame quantities.  The measured-in-B correction differs from the
world `J_B` by `crossMat Δ * jacAng B`, which `Δᵗ` annihilates. -/
lemma vecMul_relB_jacB (e : DistanceEvaluator F) (c : Context F nv) :
    Matrix.vecMul (c.calcPointsPositions e.frame_A e.pt_A e.frame_B - e.pt_B)
      (c.calcJacobianTranslationalVelocity e.frame_A e.pt_A e.frame_B e.frame_B)
    = Matrix.vecMul (relPosW e c) (jacRelW e c) := by
  rw [relPos_frameB]
  unfold Context.calcJacobianTranslationalVelocity
  rw [vecMul_rotT _ (c.rot_mul_rot_transpose e.frame_B)]
  have hM : c.jacPt e.frame_A e.pt_A -
      (c.jacO e.frame_B -
        crossMat (c.worldPt e.frame_A e.pt_A - c.org e.frame_B) * c.jacAng e.frame_B)
      = jacRelW e c + crossMat (relPosW e c) * c.jacAng e.frame_B := by
    have harg : c.worldPt e.frame_A e.pt_A - c.org e.frame_B
        = relPosW e c + c.rot e.frame_B *ᵥ e.pt_B := by
      unfold relPosW Context.worldPt
      abel
    rw [harg, crossMat_add, Matrix.add_mul]
    unfold jacRelW Context.jacPt
    abel
  rw [hM, Matrix.vecMul_add, ← Matrix.vecMul_vecMul, vecMul_crossMat_self,
    Matrix.zero_vecMul, add_zero]

/-- `EvalFull` in terms of the world-frame separation. -/
lemma evalFull_world (e : DistanceEvaluator F) (c : Context F nv) :
    e.EvalFull c = fun _ => vnorm (relPosW e c) - e.distance := by
  unfold DistanceEvaluator.EvalFull
  funext i
  dsimp only
  rw [relPos_frameB, vnorm_rotT _ (c.rot_mul_rot_transpose e.frame_B)]

/-- `EvalFullJacobian` in terms of the world-frame quantities. -/
lemma evalFullJacobian_world (e : DistanceEvaluator F) (c : Context F nv) :
    e.EvalFullJacobian c = Matrix.of fun _ j =>
      Matrix.vecMul (relPosW e c) (jacRelW e c) j / vnorm (relPosW e c) := by
  unfold DistanceEvaluator.EvalFullJacobian
  ext i j
  dsimp only [Matrix.of_apply]
  rw [vecMul_relB_jacB, relPos_frameB,
    vnorm_rotT _ (c.rot_mul_rot_transpose e.frame_B)]

lemma dotProduct_self_nonneg (x : Fin 3 → ℝ) : 0 ≤ x ⬝ᵥ x :=
  Finset.sum_nonneg fun i _ => mul_self_nonneg (x i)

lemma vnorm_sq (x : Fin 3 → ℝ) : vnorm x ^ 2 = x ⬝ᵥ x :=
  Real.sq_sqrt (dotProduct_self_nonneg x)

lemma vnorm_neg (x : Fin 3 → ℝ) : vnorm (-x) = vnorm x := by
  unfold vnorm
  rw [Matrix.neg_dotProduct, Matrix.dotProduct_neg, neg_neg]

lemma relPosW_evAB : relPosW evAB ctxW = ![-1, 0, 0] := by
  funext i
  fin_cases i <;>
    simp [relPosW, Context.worldPt, evAB, mkDistanceEvaluator, ctxW]

lemma relPosW_evAB_ne : relPosW evAB ctxW ≠ 0 := by
  rw [relPosW_evAB]
  intro hcon
  have h0 := congrFun hcon 0
  norm_num at h0

lemma vnorm_relPosW_evAB : vnorm (relPosW evAB ctxW) = 1 := by
  rw [relPosW_evAB]
  unfold vnorm
  rw [show (![-1, 0, 0] : Fin 3 → ℝ) ⬝ᵥ ![-1, 0, 0] = 1 from by
    simp [Matrix.dotProduct, Fin.sum_univ_three]]
  exact Real.sqrt_one

lemma vnorm_relPosW_evAB_ne : vnorm (relPosW evAB ctxW) ≠ 0 := by
  rw [vnorm_relPosW_evAB]
  norm_num

lemma relPosW_evAB2 : relPosW evAB2 ctxW = ![-(0.5 : ℝ), 0, 0] := by
  funext i
  fin_cases i <;>
    simp [relPosW, Context.worldPt, evAB2, mkDistanceEvaluator, ctxW]

lemma vnorm_relPosW_evAB2 : vnorm (relPosW evAB2 ctxW) = 0.5 := by
  rw [relPosW_evAB2]
  unfold vnorm
  rw [show (![-(0.5 : ℝ), 0, 0] : Fin 3 → ℝ) ⬝ᵥ ![-(0.5 : ℝ), 0, 0]
      = (0.5 : ℝ) ^ 2 from by
    simp [Matrix.dotProduct, Fin.sum_univ_three]
    norm_num]
  exact Real.sqrt_sq (by norm_num)

/-! ### Claim theorems -/

/-- Claim C1: for every context in which the two points do not coincide,
`EvalFullJacobian` of the distance evaluator returns the 1-row matrix
`Δᵗ · J_rel / ‖Δ‖`, where `Δ` is the relative position of point A minus
point B expressed in a common frame `G` and `J_rel` is the difference
`J_A - J_B` of the two points' translational-velocity Jacobians with
respect to the generalized velocity, expressed in that same frame. -/
theorem evalFullJacobian_formula (e : DistanceEvaluator F) (c : Context F nv)
    (G : F) (h : relPosW e c ≠ 0) :
    e.EvalFullJacobian c = Matrix.of fun _ j =>
      Matrix.vecMul ((c.rot G)ᵀ *ᵥ relPosW e c) ((c.rot G)ᵀ * jacRelW e c) j
        / vnorm ((c.rot G)ᵀ *ᵥ relPosW e c) := by
  rw [evalFullJacobian_world]
  ext i j
  dsimp only [Matrix.of_apply]
  rw [vecMul_rotT _ (c.rot_mul_rot_transpose G),
    vnorm_rotT _ (c.rot_mul_rot_transpose G)]

theorem evalFullJacobian_formula_witness :
    relPosW evAB ctxW ≠ 0 ∧
    DistanceEvaluator.EvalFullJacobian evAB ctxW = Matrix.of fun _ j =>
      Matrix.vecMul ((ctxW.rot 0)ᵀ *ᵥ relPosW evAB ctxW)
        ((ctxW.rot 0)ᵀ * jacRelW evAB ctxW) j
        / vnorm ((ctxW.rot 0)ᵀ *ᵥ relPosW evAB ctxW) :=
  ⟨relPosW_evAB_ne, evalFullJacobian_formula evAB ctxW 0 relPosW_evAB_ne⟩

/-- Claim C2: for every context in which the two points do not coincide
(`φ = ‖Δ‖ ≠ 0`), `EvalFullJacobianDotTimesV` returns the scalar
`‖J_rel·v‖²/φ + Δᵗ·(a_A − a_B)/φ − φ̇·Δᵗ·(J_rel·v)/φ²`, with `Δ`,
`J_rel = J_A − J_B` and the bias accelerations `a_A`, `a_B` all expressed
in the world frame, `v` the generalized velocity, and
`φ̇ = ((Δᵗ·J_rel)/φ)·v`. -/
theorem evalFullJacobianDotTimesV_formula (e : DistanceEvaluator F)
    (c : Context F nv) (h : vnorm (relPosW e c) ≠ 0) :
    e.EvalFullJacobianDotTimesV c = fun _ =>
      vnorm (jacRelW e c *ᵥ c.v) ^ 2 / vnorm (relPosW e c)
      + relPosW e c ⬝ᵥ
          (c.biasAccelW e.frame_A e.pt_A - c.biasAccelW e.frame_B e.pt_B)
          / vnorm (relPosW e c)
      - phiDotW e c * (relPosW e c ⬝ᵥ (jacRelW e c *ᵥ c.v))
          / vnorm (relPosW e c) ^ 2 := by
  funext i
  simp only [DistanceEvaluator.EvalFullJacobianDotTimesV, phiDotW,
    calcPointsPositions_world, calcJacobian_world]
  rw [show c.worldPt e.frame_A e.pt_A - c.worldPt e.frame_B e.pt_B
        = relPosW e c from rfl,
    show c.jacPt e.frame_A e.pt_A - c.jacPt e.frame_B e.pt_B
        = jacRelW e c from rfl,
    vnorm_sq, pow_two]

theorem evalFullJacobianDotTimesV_formula_witness :
    vnorm (relPosW evAB ctxW) ≠ 0 ∧
    DistanceEvaluator.EvalFullJacobianDotTimesV evAB ctxW = fun _ =>
      vnorm (jacRelW evAB ctxW *ᵥ ctxW.v) ^ 2 / vnorm (relPosW evAB ctxW)
      + relPosW evAB ctxW ⬝ᵥ
          (ctxW.biasAccelW evAB.frame_A evAB.pt_A
            - ctxW.biasAccelW evAB.frame_B evAB.pt_B)
          / vnorm (relPosW evAB ctxW)
      - phiDotW evAB ctxW * (relPosW evAB ctxW ⬝ᵥ (jacRelW evAB ctxW *ᵥ ctxW.v))
          / vnorm (relPosW evAB ctxW) ^ 2 :=
  ⟨vnorm_relPosW_evAB_ne,
    evalFullJacobianDotTimesV_formula evAB ctxW vnorm_relPosW_evAB_ne⟩

/-- Claim C3: for every context in which the generalized velocity is
exactly zero and the two points do not coincide (`φ ≠ 0`),
`EvalFullJacobianDotTimesV` returns exactly 0, regardless of the
configuration, using as hypothesis the external-interface guarantee that
the bias acceleration of any point vanishes at zero generalized
velocity. -/
theorem evalFullJacobianDotTimesV_zero_velocity (e : DistanceEvaluator F)
    (c : Context F nv) (hv : c.v = 0)
    (hphi : vnorm (relPosW e c) ≠ 0)
    (hbias : ∀ f p, c.biasAccelW f p = 0) :
    e.EvalFullJacobianDotTimesV c = fun _ => 0 := by
  funext i
  simp only [DistanceEvaluator.EvalFullJacobianDotTimesV]
  rw [hv, hbias, hbias]
  simp

theorem evalFullJacobianDotTimesV_zero_velocity_witness :
    ctxW.v = 0 ∧ vnorm (relPosW evAB ctxW) ≠ 0 ∧
    (∀ f p, ctxW.biasAccelW f p = 0) ∧
    DistanceEvaluator.EvalFullJacobianDotTimesV evAB ctxW = fun _ => 0 :=
  ⟨rfl, vnorm_relPosW_evAB_ne, fun _ _ => rfl,
    evalFullJacobianDotTimesV_zero_velocity evAB ctxW rfl
      vnorm_relPosW_evAB_ne fun _ _ => rfl⟩

/-- Claim C4: for every context, `EvalFull` returns the 1-vector whose
entry is the Euclidean norm of (point A transformed into frame B's
coordinates, minus point B) minus the target distance; for two points at
world separation `d = ‖Δ‖` it returns `d − target`, it is 0 exactly at
the target separation, positive when the points are farther apart than
the target, and negative when closer. -/
theorem evalFull_residual_characterization (e : DistanceEvaluator F)
    (c : Context F nv) :
    e.EvalFull c = (fun _ =>
      vnorm (c.calcPointsPositions e.frame_A e.pt_A e.frame_B - e.pt_B)
        - e.distance) ∧
    e.EvalFull c = (fun _ => vnorm (relPosW e c) - e.distance) ∧
    (e.EvalFull c 0 = 0 ↔ vnorm (relPosW e c) = e.distance) ∧
    (0 < e.EvalFull c 0 ↔ e.distance < vnorm (relPosW e c)) ∧
    (e.EvalFull c 0 < 0 ↔ vnorm (relPosW e c) < e.distance) := by
  have h := evalFull_world e c
  refine ⟨rfl, h, ?_, ?_, ?_⟩ <;> rw [h]
  · exact sub_eq_zero
  · exact sub_pos
  · exact sub_neg

/-- Claim C5: for every context in which the two points do not coincide,
the Jacobian row `(Δᵗ·(J_A − J_B))/φ` computed inside
`EvalFullJacobianDotTimesV` from world-frame positions and Jacobians is
equal to the matrix returned by `EvalFullJacobian`, which is computed
using frame B only: the two frame choices yield the same first-order
sensitivity. -/
theorem worldJacobian_agrees_with_evalFullJacobian (e : DistanceEvaluator F)
    (c : Context F nv) (h : relPosW e c ≠ 0) :
    e.EvalFullJacobian c = Matrix.of fun _ j => worldJacobianInsideBias e c j := by
  rw [evalFullJacobian_world]
  ext i j
  dsimp only [Matrix.of_apply]
  simp only [worldJacobianInsideBias, calcPointsPositions_world,
    calcJacobian_world]
  rfl

theorem worldJacobian_agrees_with_evalFullJacobian_witness :
    relPosW evAB ctxW ≠ 0 ∧
    DistanceEvaluator.EvalFullJacobian evAB ctxW
      = Matrix.of fun _ j => worldJacobianInsideBias evAB ctxW j :=
  ⟨relPosW_evAB_ne,
    worldJacobian_agrees_with_evalFullJacobian evAB ctxW relPosW_evAB_ne⟩

/-- Claim C7: the distance evaluator's row count is the constant 1 fixed
at construction, and for every context `EvalFull` returns a vector of
length 1 while `EvalFullJacobian` returns a matrix with 1 row and exactly
as many columns as the model's generalized-velocity count `nv`
(immutability holds because the embedding has no mutating operation on a
constructed evaluator). -/
theorem distanceEvaluator_row_shape (pA : Fin 3 → ℝ) (fA : F)
    (pB : Fin 3 → ℝ) (fB : F) (d : ℝ) (c : Context F nv) :
    (mkDistanceEvaluator pA fA pB fB d).length = 1 ∧
    (List.ofFn ((mkDistanceEvaluator pA fA pB fB d).EvalFull c)).length = 1 ∧
    ∀ i : Fin 1, (List.ofFn fun j : Fin nv =>
      (mkDistanceEvaluator pA fA pB fB d).EvalFullJacobian c i j).length = nv := by
  refine ⟨rfl, ?_, fun i => ?_⟩ <;> simp

/-- Claim C8: in the scenario with point A = (0,0,0) on frame A, point
B = (1,0,0) on frame B, both frames coincident with the world frame, and
target distance 0.5, `EvalFull` returns 0.5; with point B moved to
(0.5,0,0), `EvalFull` returns 0.0. -/
theorem concrete_scenario_residuals :
    DistanceEvaluator.EvalFull evAB ctxW = (fun _ => 0.5) ∧
    DistanceEvaluator.EvalFull evAB2 ctxW = fun _ => 0 := by
  constructor
  · rw [evalFull_world]
    funext i
    rw [vnorm_relPosW_evAB]
    norm_num [evAB, mkDistanceEvaluator]
  · rw [evalFull_world]
    funext i
    rw [vnorm_relPosW_evAB2]
    norm_num [evAB2, mkDistanceEvaluator]

/-- Claim C10: the residual is symmetric in its two endpoints: for every
context, an evaluator constructed with (point A, frame A) and (point B,
frame B) and one constructed with the two point/frame pairs swapped (same
target distance) return equal `EvalFull` values. -/
theorem evalFull_swap_symmetric (pA : Fin 3 → ℝ) (fA : F) (pB : Fin 3 → ℝ)
    (fB : F) (d : ℝ) (c : Context F nv) :
    (mkDistanceEvaluator pA fA pB fB d).EvalFull c
      = (mkDistanceEvaluator pB fB pA fA d).EvalFull c := by
  rw [evalFull_world, evalFull_world]
  funext i
  have h : relPosW (mkDistanceEvaluator pB fB pA fA d) c
      = - relPosW (mkDistanceEvaluator pA fA pB fB d) c := by
    unfold relPosW mkDistanceEvaluator
    dsimp only
    rw [neg_sub]
  rw [h, vnorm_neg]
  dsimp only [mkDistanceEvaluator]

end multibody

end dairlib
